import Mathlib

/-
Verification of the date parsing and availability-filtering core of the
SHM email writer (`src/dateUtils.js`).

Embedding conventions:

* A JavaScript `Date` holds a millisecond timestamp; all the operations the
  code performs on it (`getFullYear`, `getMonth`, `getDate`, `setFullYear`,
  `setDate`, `<`, `>=`, `getTime`) act on local civil time.  We model an
  instant as an `Int` of milliseconds of local civil time since the epoch,
  with the proleptic Gregorian conversion between day numbers and civil
  dates given by `daysFromCivil` / `civilFromDays` (the same arithmetic as
  ECMAScript `MakeDay` / `YearFromTime` / `MonthFromTime` / `DateFromTime`).
  Daylight-saving shifts are not modelled, so adding `n` calendar days with
  `setDate(getDate() + n)` is `t + n * 86400000` (`jsAddDays`).
* The wall clock read by `new Date()` inside `parseDateRanges` is passed as
  an explicit extra parameter `now` (the source re-reads the clock in each
  loop iteration; the model uses one instant for the whole call);
  `filterAvailabilityByDate` likewise takes `now` together with the optional
  caller-supplied reference instant (`userCurrentDate`, an already-parsed
  instant; an absent or empty argument is `none`).
* Strings are processed as `List Char`; `toUpperCase`/`toLowerCase` are the
  ASCII case maps (`Char.toUpper`/`Char.toLower`), `trim` removes the
  JavaScript white-space set, and `parseInt` on a run of ASCII digits is
  exact decimal evaluation (`digitsToNat`).
* The two regular expressions
  `/(\w+)\s+(\d+)\s*-\s*(\d+)(?:st|nd|rd|th)?/gi` and
  `/(\w+)\s+(\d+)(?:st|nd|rd|th)?(?:\s|,|$)/gi` are embedded as the
  deterministic matchers `matchRangeAt` / `matchSingleAt`: because the
  word, space and digit classes are pairwise disjoint, leftmost greedy
  matching with backtracking reduces to taking maximal runs, which the
  matchers implement directly; `scanRanges` / `scanSingles` reproduce the
  repeated-`exec` loop (leftmost match, continue after the match).
-/

/-- Civil (proleptic Gregorian) calendar date; `month` is 1..12. -/
structure Civil where
  year : Int
  month : Int
  day : Int
deriving DecidableEq, Repr

/-- Day number of a civil date (days since 1970-01-01, Hinnant's algorithm,
the arithmetic of ECMAScript `MakeDay`).  `d` may lie outside the month and
is then carried, exactly as `new Date(y, m, d)` normalises. -/
def daysFromCivil (y m d : Int) : Int :=
  let y2 := if m ≤ 2 then y - 1 else y
  let era := y2 / 400
  let yoe := y2 - era * 400
  let mp := if 2 < m then m - 3 else m + 9
  let doy := (153 * mp + 2) / 5 + d - 1
  let doe := yoe * 365 + yoe / 4 - yoe / 100 + doy
  era * 146097 + doe - 719468

/-- Civil date of a day number (inverse of `daysFromCivil`). -/
def civilFromDays (z : Int) : Civil :=
  let z2 := z + 719468
  let era := z2 / 146097
  let doe := z2 - era * 146097
  let yoe := (doe - doe / 1460 + doe / 36524 - doe / 146096) / 365
  let y := yoe + era * 400
  let doy := doe - (365 * yoe + yoe / 4 - yoe / 100)
  let mp := (5 * doy + 2) / 153
  let d := doy - (153 * mp + 2) / 5 + 1
  let m := if mp < 10 then mp + 3 else mp - 9
  ⟨if m ≤ 2 then y + 1 else y, m, d⟩

/-- Gregorian leap-year predicate. -/
def isLeapYear (y : Int) : Prop :=
  (y % 4 = 0 ∧ y % 100 ≠ 0) ∨ y % 400 = 0

instance (y : Int) : Decidable (isLeapYear y) := by
  unfold isLeapYear; infer_instance

/-- Number of days of month `m` (1..12) of year `y`. -/
def daysInMonth (y m : Int) : Int :=
  if m = 2 then (if isLeapYear y then 29 else 28)
  else if m = 4 ∨ m = 6 ∨ m = 9 ∨ m = 11 then 30
  else 31

/-- Civil date of the local day containing instant `t`. -/
def civilOfInstant (t : Int) : Civil := civilFromDays (t / 86400000)

/-- `Date.prototype.getFullYear`. -/
def jsGetFullYear (t : Int) : Int := (civilOfInstant t).year

/-- `Date.prototype.getMonth` (0-based month). -/
def jsGetMonth (t : Int) : Int := (civilOfInstant t).month - 1

/-- `Date.prototype.getDate` (day of month). -/
def jsGetDate (t : Int) : Int := (civilOfInstant t).day

/-- Milliseconds since local midnight. -/
def msOfDay (t : Int) : Int := t - t / 86400000 * 86400000

/-- `new Date(y, m, d)` with a 0-based month `m`: local midnight of the
(normalised) civil date. -/
def jsMakeDate (y m d : Int) : Int := daysFromCivil y (m + 1) d * 86400000

/-- `Date.prototype.setFullYear y`: keep month, day-of-month and time of
day, replace the year (renormalising, e.g. Feb 29 to Mar 1). -/
def jsSetFullYear (t y : Int) : Int :=
  daysFromCivil y (civilOfInstant t).month (civilOfInstant t).day * 86400000 + msOfDay t

/-- `d.setDate(d.getDate() + n)`: adding `n` calendar days (no DST in the
model, so exactly `n` days of milliseconds). -/
def jsAddDays (t n : Int) : Int := t + n * 86400000

/-- The `\w` class of the regular expressions (no Unicode flag). -/
def isWordChar (c : Char) : Bool := c.isAlpha || c.isDigit || c = '_'

/-- The `\s` class of JavaScript regular expressions, and the white space
removed by `String.prototype.trim`. -/
def isJsSpace (c : Char) : Bool :=
  c = ' ' || c = '\t' || c = '\n' || c.toNat = 11 || c.toNat = 12 || c = '\r' ||
  c.toNat = 160 || c.toNat = 5760 || (8192 ≤ c.toNat && c.toNat ≤ 8202) ||
  c.toNat = 8232 || c.toNat = 8233 || c.toNat = 8239 || c.toNat = 8287 ||
  c.toNat = 12288 || c.toNat = 65279

/-- `String.prototype.trim`. -/
def jsTrim (l : List Char) : List Char :=
  ((l.dropWhile isJsSpace).reverse.dropWhile isJsSpace).reverse

/-- `parseInt` on a nonempty run of ASCII digits. -/
def digitsToNat (l : List Char) : Nat := l.foldl (fun n c => 10 * n + (c.toNat - 48)) 0

/-- Case-insensitive test for the two-character ordinal suffixes
`st|nd|rd|th` (the `i` flag makes the literal characters case-blind). -/
def isOrdinalSuffix (a b : Char) : Bool :=
  (a.toLower = 's' && b.toLower = 't') || (a.toLower = 'n' && b.toLower = 'd') ||
  (a.toLower = 'r' && b.toLower = 'd') || (a.toLower = 't' && b.toLower = 'h')

/-- Consume an optional ordinal suffix (greedy `(?:st|nd|rd|th)?`). -/
def dropOrdinal (l : List Char) : List Char :=
  match l with
  | a :: b :: rest => if isOrdinalSuffix a b then rest else a :: b :: rest
  | l => l

/-- One match of the range pattern: captures and the text after the match. -/
structure RangeMatch where
  monthCap : List Char
  d1 : List Char
  d2 : List Char
  rest : List Char

/-- One match of the single-date pattern. -/
structure SingleMatch where
  monthCap : List Char
  d1 : List Char
  rest : List Char

/-- The `\s*-\s*(\d+)(?:st|nd|rd|th)?` tail of the range pattern, applied
after the first day number; returns the second capture and the rest. -/
def rangeTail (r3 : List Char) : Option (List Char × List Char) :=
  match r3.dropWhile isJsSpace with
  | '-' :: r5 =>
    let r6 := r5.dropWhile isJsSpace
    let d2 := r6.takeWhile Char.isDigit
    let r7 := r6.dropWhile Char.isDigit
    if d2.isEmpty then none else some (d2, dropOrdinal r7)
  | _ => none

/-- Match of `(\w+)\s+(\d+)\s*-\s*(\d+)(?:st|nd|rd|th)?` anchored at the
start of `l`.  Maximal runs represent the greedy quantifiers: because word,
space and digit characters are pairwise disjoint, no backtracking into a
shorter run can ever succeed. -/
def matchRangeAt (l : List Char) : Option RangeMatch :=
  let w := l.takeWhile isWordChar
  let r1 := l.dropWhile isWordChar
  if w.isEmpty then none else
  let s1 := r1.takeWhile isJsSpace
  let r2 := r1.dropWhile isJsSpace
  if s1.isEmpty then none else
  let d1 := r2.takeWhile Char.isDigit
  let r3 := r2.dropWhile Char.isDigit
  if d1.isEmpty then none else
  match rangeTail r3 with
  | some (d2, rest) => some ⟨w, d1, d2, rest⟩
  | none => none

/-- The final `(?:\s|,|$)` alternation of the single-date pattern: consumes
one space or comma, or succeeds without consuming at the end of input. -/
def endCheck : List Char → Option (List Char)
  | [] => some []
  | c :: rest => if isJsSpace c || c = ',' then some rest else none

/-- The `(?:st|nd|rd|th)?(?:\s|,|$)` tail of the single-date pattern: first
try with the suffix consumed, then backtrack to the empty alternative. -/
def singleTail (r3 : List Char) : Option (List Char) :=
  match r3 with
  | a :: b :: r4 =>
    if isOrdinalSuffix a b then
      match endCheck r4 with
      | some rest => some rest
      | none => endCheck (a :: b :: r4)
    else endCheck (a :: b :: r4)
  | r3x => endCheck r3x

/-- Match of `(\w+)\s+(\d+)(?:st|nd|rd|th)?(?:\s|,|$)` anchored at the
start of `l`. -/
def matchSingleAt (l : List Char) : Option SingleMatch :=
  let w := l.takeWhile isWordChar
  let r1 := l.dropWhile isWordChar
  if w.isEmpty then none else
  let s1 := r1.takeWhile isJsSpace
  let r2 := r1.dropWhile isJsSpace
  if s1.isEmpty then none else
  let d1 := r2.takeWhile Char.isDigit
  let r3 := r2.dropWhile Char.isDigit
  if d1.isEmpty then none else
  match singleTail r3 with
  | some rest => some ⟨w, d1, rest⟩
  | none => none

/-- Fueled worker for `scanRanges` (structural recursion keeps the kernel
able to evaluate it; fuel `l.length` always suffices since a match consumes
at least one character). -/
def scanRangesF : Nat → List Char → List (List Char × List Char × List Char)
  | 0, _ => []
  | _ + 1, [] => []
  | fuel + 1, c :: cs =>
    match matchRangeAt (c :: cs) with
    | some m => (m.monthCap, m.d1, m.d2) :: scanRangesF fuel m.rest
    | none => scanRangesF fuel cs

/-- All matches of the range pattern in text order: the repeated
`rangePattern.exec(cleaned)` loop (leftmost match, resume after it). -/
def scanRanges (l : List Char) : List (List Char × List Char × List Char) :=
  scanRangesF l.length l

/-- Fueled worker for `scanSingles`. -/
def scanSinglesF : Nat → List Char → List (List Char × List Char)
  | 0, _ => []
  | _ + 1, [] => []
  | fuel + 1, c :: cs =>
    match matchSingleAt (c :: cs) with
    | some m => (m.monthCap, m.d1) :: scanSinglesF fuel m.rest
    | none => scanSinglesF fuel cs

/-- All matches of the single-date pattern in text order: the repeated
`singlePattern.exec(cleaned)` loop. -/
def scanSingles (l : List Char) : List (List Char × List Char) :=
  scanSinglesF l.length l

/-- The `monthNames` lookup object of `parseDateRanges` (0-based months);
`hasOwnProperty` then member access is association-list lookup. -/
def monthPairs : List (String × Int) :=
  [("january", 0), ("jan", 0), ("february", 1), ("feb", 1), ("march", 2), ("mar", 2),
   ("april", 3), ("apr", 3), ("may", 4), ("june", 5), ("jun", 5), ("july", 6), ("jul", 6),
   ("august", 7), ("aug", 7), ("september", 8), ("sep", 8), ("sept", 8), ("october", 9),
   ("oct", 9), ("november", 10), ("nov", 10), ("december", 11), ("dec", 11)]

def monthLookup (w : List Char) : Option Int :=
  (monthPairs.find? (fun p => p.1.toList == w)).map (fun p => p.2)

/-- One availability range; `start` and `ends` are instants (the JS object
holds two `Date` values, compared and rendered through their timestamps).
`ends` models the source's `end` field, which is a keyword here. -/
structure DateRange where
  start : Int
  ends : Int
deriving DecidableEq, Repr

/-- Body of the range-pattern `while` loop for one recognised month: build
`startDate`/`endDate` with `new Date(currentYear, month, day)` and bump
both with `setFullYear(currentYear + 1)` when `endDate < now`. -/
def mkRangeEntry (y now m : Int) (d1 d2 : Nat) : DateRange :=
  let sd := jsMakeDate y m (d1 : Int)
  let ed := jsMakeDate y m (d2 : Int)
  if ed < now then ⟨jsSetFullYear sd (y + 1), jsSetFullYear ed (y + 1)⟩ else ⟨sd, ed⟩

/-- Body of the single-date `while` loop: one date used for both ends. -/
def mkSingleEntry (y now m : Int) (d : Nat) : DateRange :=
  let dt := jsMakeDate y m (d : Int)
  if dt < now then ⟨jsSetFullYear dt (y + 1), jsSetFullYear dt (y + 1)⟩ else ⟨dt, dt⟩

/-- `parseDateRanges(dateStr, currentYear)` of `src/dateUtils.js`; `now` is
the wall-clock instant the function reads with `new Date()` for the
year-rollover check.  The two regex loops over the trimmed input push
recognised-month matches in text order, ranges first, then singles. -/
def parseDateRanges (dateStr : String) (currentYear : Int) (now : Int) : List DateRange :=
  if dateStr = "" then [] else
  let cleaned := jsTrim dateStr.toList
  let ranges1 := (scanRanges cleaned).foldl (fun acc t =>
    match monthLookup (t.1.map Char.toLower) with
    | some m => acc ++ [mkRangeEntry currentYear now m (digitsToNat t.2.1) (digitsToNat t.2.2)]
    | none => acc) []
  (scanSingles cleaned).foldl (fun acc t =>
    match monthLookup (t.1.map Char.toLower) with
    | some m => acc ++ [mkSingleEntry currentYear now m (digitsToNat t.2)]
    | none => acc) ranges1

/-- Result of `filterAvailabilityByDate` (`hasValidDates`,
`filteredAvailability`). -/
structure FilterResult where
  hasValidDates : Bool
  filteredAvailability : String
deriving DecidableEq, Repr

/-- The `monthNames` array used for re-serialisation. -/
def monthNamesEn : List String :=
  ["January", "February", "March", "April", "May", "June", "July", "August",
   "September", "October", "November", "December"]

/-- Rendering of one (possibly adjusted) range:
`"<Month> <day>"` when the two timestamps are equal (`getTime` equality),
`"<Month> <startDay>-<endDay>"` otherwise. -/
def renderRange (r : DateRange) : String :=
  let mn := monthNamesEn.getD (jsGetMonth r.start).toNat "undefined"
  if r.start = r.ends then mn ++ " " ++ toString (jsGetDate r.start)
  else mn ++ " " ++ toString (jsGetDate r.start) ++ "-" ++ toString (jsGetDate r.ends)

/-- The guard `!availability || availability.trim() === '' ||
availability.toUpperCase() === 'OPEN'`.  Note: the `OPEN` comparison is on
the untrimmed string. -/
def sentinelCheck (availability : String) : Bool :=
  availability = "" || jsTrim availability.toList = [] ||
    availability.toList.map Char.toUpper = "OPEN".toList

/-- `filterAvailabilityByDate(availability, daysFromNow, userCurrentDate)`
of `src/dateUtils.js`; `userCurrentDate` is the caller-supplied reference
instant (already parsed; `none` models an absent argument) and `now` the
wall clock. -/
def filterAvailabilityByDate (availability : String) (daysFromNow : Int)
    (userCurrentDate : Option Int) (now : Int) : FilterResult :=
  if sentinelCheck availability then ⟨false, ""⟩
  else
    let currentDate := userCurrentDate.getD now
    let emailSendDate := jsAddDays currentDate daysFromNow
    let currentYear := jsGetFullYear currentDate
    let dateRanges := parseDateRanges availability currentYear now
    if dateRanges = [] then ⟨true, availability⟩
    else
      let validRanges := dateRanges.filter (fun r => decide (emailSendDate ≤ r.ends))
      if validRanges = [] then ⟨false, ""⟩
      else
        let adjusted := validRanges.map (fun r =>
          if r.start < emailSendDate then ⟨emailSendDate, r.ends⟩ else r)
        ⟨true, String.intercalate ", " (adjusted.map renderRange)⟩

/-- `getWaitDays(emailIndex)`: `waitDays[emailIndex] || 0` (every table
entry is nonzero, so `|| 0` fires exactly on out-of-range indices). -/
def getWaitDays (i : Int) : Int :=
  if 0 ≤ i then ([7, 14, 21, 31, 41, 51, 61] : List Int).getD i.toNat 0 else 0

/-- Target send instant: reference instant plus `daysFromNow` days
(`emailSendDate` in the source). -/
def sendInstantOf (days ref : Int) : Int := jsAddDays ref days

/-- The ranges parsed by `filterAvailabilityByDate` with reference `ref`. -/
def dateRangesOf (avail : String) (ref now : Int) : List DateRange :=
  parseDateRanges avail (jsGetFullYear ref) now

/-- The ranges surviving the expiry filter (`range.end >= emailSendDate`). -/
def survivingOf (avail : String) (days ref now : Int) : List DateRange :=
  (dateRangesOf avail ref now).filter (fun r => decide (sendInstantOf days ref ≤ r.ends))

/-- The entries contributed by the range-pattern loop, in text order. -/
def rangeEntriesOf (y now : Int) (cleaned : List Char) : List DateRange :=
  (scanRanges cleaned).filterMap (fun t =>
    (monthLookup (t.1.map Char.toLower)).map (fun m =>
      mkRangeEntry y now m (digitsToNat t.2.1) (digitsToNat t.2.2)))

/-- The entries contributed by the single-date loop, in text order. -/
def singleEntriesOf (y now : Int) (cleaned : List Char) : List DateRange :=
  (scanSingles cleaned).filterMap (fun t =>
    (monthLookup (t.1.map Char.toLower)).map (fun m =>
      mkSingleEntry y now m (digitsToNat t.2)))

/-- Modelled from the spec: the adjustment-and-rendering step in the words
of the specification — a surviving range whose `start` is before the target
send instant has its start replaced by the send instant's calendar date
(`targetSendInstant`'s date), every other range is untouched, and a range
whose start equals its end after this truncation renders as a single date.
To be compared with the rendering the code performs. -/
def specAdjustRender (send : Int) (r : DateRange) : String :=
  let s2 : Int := if r.start < send then send / 86400000 * 86400000 else r.start
  let mn := monthNamesEn.getD (jsGetMonth s2).toNat "undefined"
  if s2 = r.ends then mn ++ " " ++ toString (jsGetDate s2)
  else mn ++ " " ++ toString (jsGetDate s2) ++ "-" ++ toString (jsGetDate r.ends)

/-- Evaluation of `daysFromCivil` for months March..December. -/
theorem daysFromCivil_eval_late (y m d era yoe : Int) (h1 : 3 ≤ m) (h2 : m ≤ 12)
    (hy : y = yoe + era * 400) (ha : 0 ≤ yoe) (hb : yoe ≤ 399) :
    daysFromCivil y m d =
      era * 146097 + yoe * 365 + yoe / 4 - yoe / 100 + (153 * (m - 3) + 2) / 5 + d - 1
        - 719468 := by
  simp only [daysFromCivil]
  split_ifs <;> omega

/-- Evaluation of `daysFromCivil` for January and February. -/
theorem daysFromCivil_eval_early (y m d era yoe : Int) (h1 : 1 ≤ m) (h2 : m ≤ 2)
    (hy : y = yoe + era * 400 + 1) (ha : 0 ≤ yoe) (hb : yoe ≤ 399) :
    daysFromCivil y m d =
      era * 146097 + yoe * 365 + yoe / 4 - yoe / 100 + (153 * (m + 9) + 2) / 5 + d - 1
        - 719468 := by
  simp only [daysFromCivil]
  split_ifs <;> omega

/-- Key arithmetic fact behind year-of-era recovery in `civilFromDays`. -/
theorem yoe_recovery (doe q1 q2 q3 yoe y4 y100 : Int)
    (h0 : 0 ≤ doe) (h1 : doe < 146097)
    (e1 : doe / 1460 = q1) (e2 : doe / 36524 = q2) (e3 : doe / 146096 = q3)
    (e4 : (doe - q1 + q2 - q3) / 365 = yoe)
    (e5 : yoe / 4 = y4) (e6 : yoe / 100 = y100) :
    0 ≤ doe - (365 * yoe + y4 - y100) ∧ doe - (365 * yoe + y4 - y100) ≤ 365 ∧
      0 ≤ yoe ∧ yoe ≤ 399 := by
  have hq2a : 0 ≤ q2 := by omega
  have hq2b : q2 ≤ 4 := by omega
  have hq3a : 0 ≤ q3 := by omega
  have hq3b : q3 ≤ 1 := by omega
  have hy100a : 0 ≤ y100 := by omega
  have hy100b : y100 ≤ 3 := by omega
  interval_cases q2 <;> interval_cases q3 <;> interval_cases y100 <;> omega

/-- Forward year-of-era recovery: within-year day index below 365. -/
theorem yoe_forward (yoe y4 y100 C doe q1 q2 q3 yoe2 : Int)
    (ha : 0 ≤ yoe) (hb : yoe ≤ 399)
    (hy4 : yoe / 4 = y4) (hy100 : yoe / 100 = y100)
    (hCa : 0 ≤ C) (hCb : C ≤ 364)
    (hdoe : doe = 365 * yoe + y4 - y100 + C)
    (e1 : doe / 1460 = q1) (e2 : doe / 36524 = q2) (e3 : doe / 146096 = q3)
    (hyoe2 : (doe - q1 + q2 - q3) / 365 = yoe2) : yoe2 = yoe := by
  have hy100a : 0 ≤ y100 := by omega
  have hy100b : y100 ≤ 3 := by omega
  have hq2a : 0 ≤ q2 := by omega
  have hq2b : q2 ≤ 4 := by omega
  have hq3a : 0 ≤ q3 := by omega
  have hq3b : q3 ≤ 1 := by omega
  interval_cases y100 <;> interval_cases q2 <;> interval_cases q3 <;> omega

/-- Forward year-of-era recovery: leap-day case, day index 365. -/
theorem yoe_forward_leap (yoe y4 y100 doe q1 q2 q3 yoe2 : Int)
    (ha : 0 ≤ yoe) (hb : yoe ≤ 399)
    (hy4 : yoe / 4 = y4) (hy100 : yoe / 100 = y100)
    (hleap : (yoe + 1) % 4 = 0 ∧ ((yoe + 1) % 100 ≠ 0 ∨ yoe = 399))
    (hdoe : doe = 365 * yoe + y4 - y100 + 365)
    (e1 : doe / 1460 = q1) (e2 : doe / 36524 = q2) (e3 : doe / 146096 = q3)
    (hyoe2 : (doe - q1 + q2 - q3) / 365 = yoe2) : yoe2 = yoe := by
  have hA : yoe + 1 = 4 * ((yoe + 1) / 4) := by omega
  have hA1 : 1 ≤ (yoe + 1) / 4 := by omega
  have hA2 : (yoe + 1) / 4 ≤ 100 := by omega
  generalize hAv : (yoe + 1) / 4 = A at hA hA1 hA2
  interval_cases A <;> omega

set_option maxHeartbeats 4000000 in
/-- Evaluation of `civilFromDays` at a day number presented as era, year of era
and day-of-year index. -/
theorem civilFromDays_eval (z era yoe y4 y100 C : Int)
    (hy4 : yoe / 4 = y4) (hy100 : yoe / 100 = y100)
    (hz : z = era * 146097 + 365 * yoe + y4 - y100 + C - 719468)
    (h1 : 0 ≤ yoe) (h2 : yoe ≤ 399)
    (hC1 : 0 ≤ C)
    (hC2 : C ≤ 364 ∨ (C = 365 ∧ (yoe + 1) % 4 = 0 ∧ ((yoe + 1) % 100 ≠ 0 ∨ yoe = 399))) :
    civilFromDays z =
      ⟨era * 400 + yoe + (if 306 ≤ C then 1 else 0),
       if (5 * C + 2) / 153 < 10 then (5 * C + 2) / 153 + 3 else (5 * C + 2) / 153 - 9,
       C - (153 * ((5 * C + 2) / 153) + 2) / 5 + 1⟩ := by
  simp only [civilFromDays]
  generalize hera : (z + 719468) / 146097 = era2
  have hCb : C ≤ 365 := by omega
  have he : era2 = era := by omega
  generalize hdoe : z + 719468 - era2 * 146097 = doe
  have hdoev : doe = 365 * yoe + y4 - y100 + C := by omega
  generalize hq1 : doe / 1460 = q1
  generalize hq2 : doe / 36524 = q2
  generalize hq3 : doe / 146096 = q3
  generalize hyoe2 : (doe - q1 + q2 - q3) / 365 = yoe2
  have hyy : yoe2 = yoe := by
    rcases hC2 with hle | ⟨hC365, hleap⟩
    · exact yoe_forward yoe y4 y100 C doe q1 q2 q3 yoe2 h1 h2 hy4 hy100 hC1 hle hdoev
        hq1 hq2 hq3 hyoe2
    · exact yoe_forward_leap yoe y4 y100 doe q1 q2 q3 yoe2 h1 h2 hy4 hy100 hleap
        (by omega) hq1 hq2 hq3 hyoe2
  generalize hy42 : yoe2 / 4 = y42
  generalize hy1002 : yoe2 / 100 = y1002
  have h42 : y42 = y4 := by omega
  have h1002 : y1002 = y100 := by omega
  generalize hdoy : doe - (365 * yoe2 + y42 - y1002) = doy
  have hdoyC : doy = C := by omega
  generalize hmp : (5 * doy + 2) / 153 = mp
  generalize hq5 : (153 * mp + 2) / 5 = q5
  simp only [Civil.mk.injEq]
  have hmpC : mp = (5 * C + 2) / 153 := by omega
  have hq5C : q5 = (153 * ((5 * C + 2) / 153) + 2) / 5 := by omega
  have hmpr : 0 ≤ mp ∧ mp ≤ 11 := by omega
  split_ifs <;> omega

set_option maxHeartbeats 4000000 in
/-- `daysFromCivil` is a left inverse of `civilFromDays` on every day number. -/
theorem daysFromCivil_civilFromDays (z : Int) :
    daysFromCivil (civilFromDays z).year (civilFromDays z).month (civilFromDays z).day = z := by
  simp only [civilFromDays]
  generalize hera : (z + 719468) / 146097 = era
  generalize hdoe : z + 719468 - era * 146097 = doe
  generalize hq1 : doe / 1460 = q1
  generalize hq2 : doe / 36524 = q2
  generalize hq3 : doe / 146096 = q3
  generalize hyoe : (doe - q1 + q2 - q3) / 365 = yoe
  generalize hy4 : yoe / 4 = y4
  generalize hy100 : yoe / 100 = y100
  generalize hdoy : doe - (365 * yoe + y4 - y100) = doy
  generalize hmp : (5 * doy + 2) / 153 = mp
  generalize hq5 : (153 * mp + 2) / 5 = q5
  have h0 : 0 ≤ doe := by omega
  have h1 : doe < 146097 := by omega
  have hkey := yoe_recovery doe q1 q2 q3 yoe y4 y100 h0 h1 hq1 hq2 hq3 hyoe hy4 hy100
  have hmpr : 0 ≤ mp ∧ mp ≤ 11 := by omega
  by_cases hc : mp < 10
  · have hm2 : ¬ (mp + 3 ≤ 2) := by omega
    simp only [if_pos hc, if_neg hm2]
    rw [daysFromCivil_eval_late (yoe + era * 400) (mp + 3) (doy - q5 + 1) era yoe
      (by omega) (by omega) rfl (by omega) (by omega)]
    have : (153 * (mp + 3 - 3) + 2) / 5 = q5 := by omega
    omega
  · have hm2 : mp - 9 ≤ 2 := by omega
    simp only [if_neg hc, if_pos hm2]
    rw [daysFromCivil_eval_early (yoe + era * 400 + 1) (mp - 9) (doy - q5 + 1) era yoe
      (by omega) (by omega) rfl (by omega) (by omega)]
    have : (153 * (mp - 9 + 9) + 2) / 5 = q5 := by omega
    omega

set_option maxHeartbeats 8000000 in
/-- Roundtrip for valid dates in March..December. -/
theorem roundtrip_late (y m d : Int) (h1 : 3 ≤ m) (h2 : m ≤ 12)
    (h3 : 1 ≤ d) (h4 : d ≤ daysInMonth y m) :
    civilFromDays (daysFromCivil y m d) = ⟨y, m, d⟩ := by
  have hd31 : d ≤ 31 := by
    simp only [daysInMonth] at h4; split_ifs at h4 <;> omega
  rw [daysFromCivil_eval_late y m d (y / 400) (y - y / 400 * 400) h1 h2 (by omega)
    (by omega) (by omega)]
  rw [civilFromDays_eval _ (y / 400) (y - y / 400 * 400) ((y - y / 400 * 400) / 4)
    ((y - y / 400 * 400) / 100) ((153 * (m - 3) + 2) / 5 + d - 1) rfl rfl (by omega)
    (by omega) (by omega) (by omega) (Or.inl (by omega))]
  simp only [Civil.mk.injEq]
  simp only [daysInMonth] at h4
  split_ifs at h4 <;> interval_cases m <;> split_ifs <;> omega

set_option maxHeartbeats 8000000 in
/-- Roundtrip for valid dates in January..February. -/
theorem roundtrip_early (y m d : Int) (h1 : 1 ≤ m) (h2 : m ≤ 2)
    (h3 : 1 ≤ d) (h4 : d ≤ daysInMonth y m) :
    civilFromDays (daysFromCivil y m d) = ⟨y, m, d⟩ := by
  have hd29 : d ≤ 31 := by
    simp only [daysInMonth] at h4; split_ifs at h4 <;> omega
  have hleapd : d ≤ 28 ∨ m = 1 ∨
      (m = 2 ∧ d ≤ 29 ∧ ((y % 4 = 0 ∧ y % 100 ≠ 0) ∨ y % 400 = 0)) := by
    simp only [daysInMonth, isLeapYear] at h4
    split_ifs at h4 <;> omega
  rw [daysFromCivil_eval_early y m d ((y - 1) / 400) (y - 1 - (y - 1) / 400 * 400) h1 h2
    (by omega) (by omega) (by omega)]
  rw [civilFromDays_eval _ ((y - 1) / 400) (y - 1 - (y - 1) / 400 * 400)
    ((y - 1 - (y - 1) / 400 * 400) / 4) ((y - 1 - (y - 1) / 400 * 400) / 100)
    ((153 * (m + 9) + 2) / 5 + d - 1) rfl rfl (by omega) (by omega) (by omega) (by omega)
    (by rcases hleapd with hc | hc | ⟨hm2, hd2, hc⟩ <;> [omega; omega;
        (rcases hc with ⟨hc1, hc2⟩ | hc3 <;> omega)])]
  simp only [Civil.mk.injEq]
  interval_cases m <;> split_ifs <;> omega

/-- `civilFromDays` is a left inverse of `daysFromCivil` on valid civil dates. -/
theorem civilFromDays_daysFromCivil (y m d : Int) (h1 : 1 ≤ m) (h2 : m ≤ 12)
    (h3 : 1 ≤ d) (h4 : d ≤ daysInMonth y m) :
    civilFromDays (daysFromCivil y m d) = ⟨y, m, d⟩ := by
  by_cases hm : m ≤ 2
  · exact roundtrip_early y m d h1 hm h3 h4
  · exact roundtrip_late y m d (by omega) h2 h3 h4

theorem length_dropWhile_le (p : Char → Bool) (l : List Char) :
    (l.dropWhile p).length ≤ l.length := by
  induction l with
  | nil => simp [List.dropWhile]
  | cons c cs ih =>
    simp only [List.dropWhile]
    split
    · simp only [List.length_cons]; omega
    · simp

theorem length_dropOrdinal_le (l : List Char) : (dropOrdinal l).length ≤ l.length := by
  unfold dropOrdinal
  split
  · split
    · simp only [List.length_cons]; omega
    · exact Nat.le_refl _
  · exact Nat.le_refl _

theorem length_span_add (p : Char → Bool) (l : List Char) :
    (l.takeWhile p).length + (l.dropWhile p).length = l.length := by
  have h := congrArg List.length (List.takeWhile_append_dropWhile p l)
  rw [List.length_append] at h
  exact h

theorem endCheck_length_le (l rest : List Char) (h : endCheck l = some rest) :
    rest.length ≤ l.length := by
  cases l with
  | nil =>
    simp only [endCheck, Option.some.injEq] at h
    simp [← h]
  | cons c cs =>
    simp only [endCheck] at h
    split at h
    · cases h; simp
    · cases h

theorem rangeTail_length_le (r3 d2 rest : List Char)
    (h : rangeTail r3 = some (d2, rest)) : rest.length ≤ r3.length := by
  simp only [rangeTail] at h
  split at h
  next r5 heq =>
    split at h
    · cases h
    · simp only [Option.some.injEq, Prod.mk.injEq] at h
      have h1 : ('-' :: r5).length ≤ r3.length := by
        rw [← heq]; exact length_dropWhile_le _ _
      have h2 := length_dropWhile_le isJsSpace r5
      have h3 := length_dropWhile_le Char.isDigit (r5.dropWhile isJsSpace)
      have h4 := length_dropOrdinal_le ((r5.dropWhile isJsSpace).dropWhile Char.isDigit)
      simp only [List.length_cons] at h1
      rw [← h.2] at *
      omega
  next => cases h

theorem singleTail_length_le (r3 rest : List Char)
    (h : singleTail r3 = some rest) : rest.length ≤ r3.length := by
  cases r3 with
  | nil => exact endCheck_length_le [] rest h
  | cons a r1 =>
    cases r1 with
    | nil => exact endCheck_length_le [a] rest h
    | cons b r4 =>
      have h2 : (if isOrdinalSuffix a b then
          match endCheck r4 with
          | some rest2 => some rest2
          | none => endCheck (a :: b :: r4)
        else endCheck (a :: b :: r4)) = some rest := h
      split at h2
      · cases hE : endCheck r4 with
        | some rest2 =>
          simp only [hE, Option.some.injEq] at h2
          have h3 := endCheck_length_le r4 rest2 hE
          subst h2
          simp only [List.length_cons]
          omega
        | none =>
          rw [hE] at h2
          exact endCheck_length_le (a :: b :: r4) rest h2
      · exact endCheck_length_le (a :: b :: r4) rest h2

theorem matchRangeAt_rest_lt (l : List Char) (m : RangeMatch)
    (h : matchRangeAt l = some m) : m.rest.length < l.length := by
  simp only [matchRangeAt] at h
  split at h
  · cases h
  · split at h
    · cases h
    · split at h
      · cases h
      · split at h
        next d2 rest heq =>
          simp only [Option.some.injEq] at h
          have h1 := rangeTail_length_le _ _ _ heq
          have h2 := length_dropWhile_le Char.isDigit
            ((l.dropWhile isWordChar).dropWhile isJsSpace)
          have h3 := length_dropWhile_le isJsSpace (l.dropWhile isWordChar)
          have h4 := length_span_add isWordChar l
          have hw : ¬ (l.takeWhile isWordChar).isEmpty = true := by assumption
          have hwl : 1 ≤ (l.takeWhile isWordChar).length := by
            cases hq : l.takeWhile isWordChar with
            | nil => rw [hq] at hw; simp at hw
            | cons x xs => simp
          rw [← h]
          show rest.length < l.length
          omega
        next => cases h

theorem matchSingleAt_rest_lt (l : List Char) (m : SingleMatch)
    (h : matchSingleAt l = some m) : m.rest.length < l.length := by
  simp only [matchSingleAt] at h
  split at h
  · cases h
  · split at h
    · cases h
    · split at h
      · cases h
      · split at h
        next rest heq =>
          simp only [Option.some.injEq] at h
          have h1 := singleTail_length_le _ _ heq
          have h2 := length_dropWhile_le Char.isDigit
            ((l.dropWhile isWordChar).dropWhile isJsSpace)
          have h3 := length_dropWhile_le isJsSpace (l.dropWhile isWordChar)
          have h4 := length_span_add isWordChar l
          have hw : ¬ (l.takeWhile isWordChar).isEmpty = true := by assumption
          have hwl : 1 ≤ (l.takeWhile isWordChar).length := by
            cases hq : l.takeWhile isWordChar with
            | nil => rw [hq] at hw; simp at hw
            | cons x xs => simp
          rw [← h]
          show rest.length < l.length
          omega
        next => cases h

theorem scanRangesF_succ_cons (f : Nat) (c : Char) (cs : List Char) :
    scanRangesF (f + 1) (c :: cs) =
      match matchRangeAt (c :: cs) with
      | some m => (m.monthCap, m.d1, m.d2) :: scanRangesF f m.rest
      | none => scanRangesF f cs := rfl

theorem scanSinglesF_succ_cons (f : Nat) (c : Char) (cs : List Char) :
    scanSinglesF (f + 1) (c :: cs) =
      match matchSingleAt (c :: cs) with
      | some m => (m.monthCap, m.d1) :: scanSinglesF f m.rest
      | none => scanSinglesF f cs := rfl

theorem scanRangesF_fuel (fuel fuel2 : Nat) (l : List Char)
    (h : l.length ≤ fuel) (h2 : l.length ≤ fuel2) :
    scanRangesF fuel l = scanRangesF fuel2 l := by
  induction fuel generalizing l fuel2 with
  | zero =>
    have : l = [] := by cases l <;> simp_all
    subst this
    cases fuel2 <;> rfl
  | succ f ih =>
    cases l with
    | nil => cases fuel2 <;> rfl
    | cons c cs =>
      cases fuel2 with
      | zero => simp at h2
      | succ f2 =>
        rw [scanRangesF_succ_cons f c cs, scanRangesF_succ_cons f2 c cs]
        cases hm : matchRangeAt (c :: cs) with
        | some m =>
          have hlt := matchRangeAt_rest_lt _ _ hm
          simp only [List.length_cons] at h h2 hlt
          simp only [hm]
          rw [ih f2 m.rest (by omega) (by omega)]
        | none =>
          simp only [List.length_cons] at h h2
          simp only [hm]
          rw [ih f2 cs (by omega) (by omega)]

theorem scanSinglesF_fuel (fuel fuel2 : Nat) (l : List Char)
    (h : l.length ≤ fuel) (h2 : l.length ≤ fuel2) :
    scanSinglesF fuel l = scanSinglesF fuel2 l := by
  induction fuel generalizing l fuel2 with
  | zero =>
    have : l = [] := by cases l <;> simp_all
    subst this
    cases fuel2 <;> rfl
  | succ f ih =>
    cases l with
    | nil => cases fuel2 <;> rfl
    | cons c cs =>
      cases fuel2 with
      | zero => simp at h2
      | succ f2 =>
        rw [scanSinglesF_succ_cons f c cs, scanSinglesF_succ_cons f2 c cs]
        cases hm : matchSingleAt (c :: cs) with
        | some m =>
          have hlt := matchSingleAt_rest_lt _ _ hm
          simp only [List.length_cons] at h h2 hlt
          simp only [hm]
          rw [ih f2 m.rest (by omega) (by omega)]
        | none =>
          simp only [List.length_cons] at h h2
          simp only [hm]
          rw [ih f2 cs (by omega) (by omega)]

theorem scanRanges_nil : scanRanges [] = [] := rfl

theorem scanRanges_cons (c : Char) (cs : List Char) :
    scanRanges (c :: cs) =
      match matchRangeAt (c :: cs) with
      | some m => (m.monthCap, m.d1, m.d2) :: scanRanges m.rest
      | none => scanRanges cs := by
  show scanRangesF (cs.length + 1) (c :: cs) = _
  rw [scanRangesF_succ_cons cs.length c cs]
  cases hm : matchRangeAt (c :: cs) with
  | some m =>
    have hlt := matchRangeAt_rest_lt _ _ hm
    simp only [List.length_cons] at hlt
    simp only [hm]
    exact congrArg _ (scanRangesF_fuel cs.length m.rest.length m.rest (by omega) (by omega))
  | none =>
    simp only [hm]
    rfl

theorem scanSingles_nil : scanSingles [] = [] := rfl

theorem scanSingles_cons (c : Char) (cs : List Char) :
    scanSingles (c :: cs) =
      match matchSingleAt (c :: cs) with
      | some m => (m.monthCap, m.d1) :: scanSingles m.rest
      | none => scanSingles cs := by
  show scanSinglesF (cs.length + 1) (c :: cs) = _
  rw [scanSinglesF_succ_cons cs.length c cs]
  cases hm : matchSingleAt (c :: cs) with
  | some m =>
    have hlt := matchSingleAt_rest_lt _ _ hm
    simp only [List.length_cons] at hlt
    simp only [hm]
    exact congrArg _ (scanSinglesF_fuel cs.length m.rest.length m.rest (by omega) (by omega))
  | none =>
    simp only [hm]
    rfl


theorem isDigit_toUpper (c : Char) (h : c.isDigit = true) : c.toUpper = c := by
  have h2 : c.val ≤ 57 := by
    simp [Char.isDigit, decide_eq_true_eq] at h
    exact h.2
  simp [Char.toUpper, Char.isLower]
  intro h3
  exfalso
  have : (97 : UInt32) ≤ 57 := le_trans h3 h2
  simp at this

theorem mem_of_mem_dropWhile (p : Char → Bool) (c : Char) (l : List Char)
    (h : c ∈ l.dropWhile p) : c ∈ l := by
  induction l with
  | nil => simp [List.dropWhile] at h
  | cons a as ih =>
    simp only [List.dropWhile] at h
    split at h
    · exact List.mem_cons_of_mem a (ih h)
    · exact h

theorem mem_of_mem_takeWhile (p : Char → Bool) (c : Char) (l : List Char)
    (h : c ∈ l.takeWhile p) : c ∈ l := by
  induction l with
  | nil => simp [List.takeWhile] at h
  | cons a as ih =>
    simp only [List.takeWhile] at h
    split at h
    · rcases List.mem_cons.mp h with h | h
      · exact h ▸ List.mem_cons_self a as
      · exact List.mem_cons_of_mem a (ih h)
    · simp at h

theorem mem_of_mem_jsTrim (c : Char) (l : List Char) (h : c ∈ jsTrim l) : c ∈ l := by
  unfold jsTrim at h
  rw [List.mem_reverse] at h
  have h2 := mem_of_mem_dropWhile _ _ _ h
  rw [List.mem_reverse] at h2
  exact mem_of_mem_dropWhile _ _ _ h2

theorem takeWhile_digit_nil (l : List Char) (h : ∀ c ∈ l, c.isDigit = false) :
    l.takeWhile Char.isDigit = [] := by
  cases l with
  | nil => rfl
  | cons a as =>
    simp only [List.takeWhile]
    rw [h a (List.mem_cons_self a as)]

theorem matchRangeAt_eq_none (l : List Char) (h : ∀ c ∈ l, c.isDigit = false) :
    matchRangeAt l = none := by
  have hd : ((l.dropWhile isWordChar).dropWhile isJsSpace).takeWhile Char.isDigit = [] := by
    refine takeWhile_digit_nil _ (fun c hc => ?_)
    exact h c (mem_of_mem_dropWhile _ _ _ (mem_of_mem_dropWhile _ _ _ hc))
  simp only [matchRangeAt, hd, List.isEmpty_nil]
  split_ifs <;> rfl

theorem matchSingleAt_eq_none (l : List Char) (h : ∀ c ∈ l, c.isDigit = false) :
    matchSingleAt l = none := by
  have hd : ((l.dropWhile isWordChar).dropWhile isJsSpace).takeWhile Char.isDigit = [] := by
    refine takeWhile_digit_nil _ (fun c hc => ?_)
    exact h c (mem_of_mem_dropWhile _ _ _ (mem_of_mem_dropWhile _ _ _ hc))
  simp only [matchSingleAt, hd, List.isEmpty_nil]
  split_ifs <;> rfl

theorem scanRanges_eq_nil (l : List Char) (h : ∀ c ∈ l, c.isDigit = false) :
    scanRanges l = [] := by
  induction l with
  | nil => rfl
  | cons c cs ih =>
    rw [scanRanges_cons, matchRangeAt_eq_none (c :: cs) h]
    exact ih (fun a ha => h a (List.mem_cons_of_mem c ha))

theorem scanSingles_eq_nil (l : List Char) (h : ∀ c ∈ l, c.isDigit = false) :
    scanSingles l = [] := by
  induction l with
  | nil => rfl
  | cons c cs ih =>
    rw [scanSingles_cons, matchSingleAt_eq_none (c :: cs) h]
    exact ih (fun a ha => h a (List.mem_cons_of_mem c ha))

theorem foldl_pushEntry {α : Type} (g : α → Option DateRange) (l : List α)
    (acc : List DateRange) :
    l.foldl (fun a t => match g t with | some r => a ++ [r] | none => a) acc
      = acc ++ l.filterMap g := by
  induction l generalizing acc with
  | nil => simp
  | cons t ts ih =>
    simp only [List.foldl_cons, List.filterMap_cons]
    cases hg : g t with
    | none => simp [ih]
    | some r => rw [ih]; simp

theorem parseDateRanges_eq (s : String) (y now : Int) :
    parseDateRanges s y now =
      rangeEntriesOf y now (jsTrim s.toList) ++ singleEntriesOf y now (jsTrim s.toList) := by
  by_cases hs : s = ""
  · subst hs; rfl
  · simp only [parseDateRanges, if_neg hs]
    have hf1 : (fun (acc : List DateRange) (t : List Char × List Char × List Char) =>
        match monthLookup (t.1.map Char.toLower) with
        | some m => acc ++ [mkRangeEntry y now m (digitsToNat t.2.1) (digitsToNat t.2.2)]
        | none => acc)
      = (fun acc t =>
        match (monthLookup (t.1.map Char.toLower)).map
            (fun m => mkRangeEntry y now m (digitsToNat t.2.1) (digitsToNat t.2.2)) with
        | some r => acc ++ [r]
        | none => acc) := by
      funext a t
      cases monthLookup (t.1.map Char.toLower) <;> rfl
    have hf2 : (fun (acc : List DateRange) (t : List Char × List Char) =>
        match monthLookup (t.1.map Char.toLower) with
        | some m => acc ++ [mkSingleEntry y now m (digitsToNat t.2)]
        | none => acc)
      = (fun acc t =>
        match (monthLookup (t.1.map Char.toLower)).map
            (fun m => mkSingleEntry y now m (digitsToNat t.2)) with
        | some r => acc ++ [r]
        | none => acc) := by
      funext a t
      cases monthLookup (t.1.map Char.toLower) <;> rfl
    rw [hf1, hf2, foldl_pushEntry, foldl_pushEntry]
    simp only [List.nil_append]
    rfl

theorem mkSingleEntry_eq_range (y now m : Int) (d : Nat) :
    mkSingleEntry y now m d = mkRangeEntry y now m d d := rfl

theorem parse_mem (s : String) (y now : Int) (r : DateRange)
    (h : r ∈ parseDateRanges s y now) :
    ∃ m : Int, ∃ d1 d2 : Nat, r = mkRangeEntry y now m d1 d2 := by
  rw [parseDateRanges_eq] at h
  rcases List.mem_append.mp h with h | h
  · obtain ⟨t, ht, hmap⟩ := List.mem_filterMap.mp h
    obtain ⟨m, hm, hr⟩ := Option.map_eq_some'.mp hmap
    exact ⟨m, digitsToNat t.2.1, digitsToNat t.2.2, hr.symm⟩
  · obtain ⟨t, ht, hmap⟩ := List.mem_filterMap.mp h
    obtain ⟨m, hm, hr⟩ := Option.map_eq_some'.mp hmap
    exact ⟨m, digitsToNat t.2, digitsToNat t.2, by rw [← hr, mkSingleEntry_eq_range]⟩

theorem jsMakeDate_mod (y m d : Int) : jsMakeDate y m d % 86400000 = 0 := by
  unfold jsMakeDate
  omega

theorem jsSetFullYear_mod (t y : Int) (h : t % 86400000 = 0) :
    jsSetFullYear t y % 86400000 = 0 := by
  unfold jsSetFullYear msOfDay
  omega

theorem mkRangeEntry_mod (y now m : Int) (d1 d2 : Nat) :
    (mkRangeEntry y now m d1 d2).start % 86400000 = 0 ∧
      (mkRangeEntry y now m d1 d2).ends % 86400000 = 0 := by
  simp only [mkRangeEntry]
  split
  · exact ⟨jsSetFullYear_mod _ _ (jsMakeDate_mod _ _ _),
      jsSetFullYear_mod _ _ (jsMakeDate_mod _ _ _)⟩
  · exact ⟨jsMakeDate_mod _ _ _, jsMakeDate_mod _ _ _⟩

theorem parse_mod (s : String) (y now : Int) (r : DateRange)
    (h : r ∈ parseDateRanges s y now) :
    r.start % 86400000 = 0 ∧ r.ends % 86400000 = 0 := by
  obtain ⟨m, d1, d2, hr⟩ := parse_mem s y now r h
  rw [hr]
  exact mkRangeEntry_mod y now m d1 d2

theorem sentinel_parse_empty (avail : String) (y now : Int)
    (h : sentinelCheck avail = true) : parseDateRanges avail y now = [] := by
  simp only [sentinelCheck, Bool.or_eq_true, decide_eq_true_eq] at h
  rcases h with (h | h) | h
  · subst h; rfl
  · rw [parseDateRanges_eq]
    unfold rangeEntriesOf singleEntriesOf
    rw [h]
    rfl
  · have hnd : ∀ c ∈ avail.toList, c.isDigit = false := by
      intro c hc
      by_contra hdig
      rw [Bool.not_eq_false] at hdig
      have h1 : c.toUpper ∈ avail.toList.map Char.toUpper := List.mem_map_of_mem _ hc
      rw [h, isDigit_toUpper c hdig] at h1
      have : c = 'O' ∨ c = 'P' ∨ c = 'E' ∨ c = 'N' := by
        simpa using h1
      rcases this with h | h | h | h <;> (subst h; simp at hdig)
    have hnd2 : ∀ c ∈ jsTrim avail.toList, c.isDigit = false :=
      fun c hc => hnd c (mem_of_mem_jsTrim c _ hc)
    rw [parseDateRanges_eq]
    unfold rangeEntriesOf singleEntriesOf
    rw [scanRanges_eq_nil _ hnd2, scanSingles_eq_nil _ hnd2]
    rfl

theorem sentinelCheck_eq_false (avail : String)
    (h1 : jsTrim avail.toList ≠ []) (h2 : avail.toList.map Char.toUpper ≠ "OPEN".toList) :
    sentinelCheck avail = false := by
  simp only [sentinelCheck, Bool.or_eq_false_iff, decide_eq_false_iff_not]
  refine ⟨⟨?_, h1⟩, h2⟩
  intro he
  apply h1
  rw [he]
  rfl

theorem renderRange_mk (a b : Int) :
    renderRange ⟨a, b⟩ =
      (if a = b then monthNamesEn.getD (jsGetMonth a).toNat "undefined" ++ " " ++
          toString (jsGetDate a)
        else monthNamesEn.getD (jsGetMonth a).toNat "undefined" ++ " " ++
          toString (jsGetDate a) ++ "-" ++ toString (jsGetDate b)) := rfl

theorem render_adjust_eq (send : Int) (r : DateRange)
    (hmid : r.ends % 86400000 = 0) (hsur : send ≤ r.ends) :
    renderRange (if r.start < send then ⟨send, r.ends⟩ else r) = specAdjustRender send r := by
  by_cases hlt : r.start < send
  · simp only [if_pos hlt, specAdjustRender, renderRange_mk]
    have hciv : civilOfInstant (send / 86400000 * 86400000) = civilOfInstant send := by
      unfold civilOfInstant
      congr 1
      omega
    have hmm : jsGetMonth (send / 86400000 * 86400000) = jsGetMonth send := by
      unfold jsGetMonth; rw [hciv]
    have hdd : jsGetDate (send / 86400000 * 86400000) = jsGetDate send := by
      unfold jsGetDate; rw [hciv]
    have hiff : (send = r.ends) ↔ (send / 86400000 * 86400000 = r.ends) := by omega
    rw [hmm, hdd, if_congr hiff rfl rfl]
  · simp only [if_neg hlt, specAdjustRender, renderRange]

theorem filter_eq_of_surviving (avail : String) (days ref now : Int)
    (hne : survivingOf avail days ref now ≠ []) :
    filterAvailabilityByDate avail days (some ref) now =
      ⟨true, String.intercalate ", " ((survivingOf avail days ref now).map (fun r =>
        renderRange (if r.start < sendInstantOf days ref
          then ⟨sendInstantOf days ref, r.ends⟩ else r)))⟩ := by
  have hparse_ne : parseDateRanges avail (jsGetFullYear ref) now ≠ [] := by
    intro h0
    apply hne
    unfold survivingOf dateRangesOf
    rw [h0]
    rfl
  have hsent : sentinelCheck avail = false := by
    cases hsc : sentinelCheck avail
    · rfl
    · exact absurd (sentinel_parse_empty _ _ now hsc) hparse_ne
  have hne2 : (parseDateRanges avail (jsGetFullYear ref) now).filter
      (fun r => decide (jsAddDays ref days ≤ r.ends)) ≠ [] := hne
  unfold filterAvailabilityByDate
  rw [if_neg (by rw [hsent]; exact Bool.false_ne_true)]
  simp only [Option.getD_some]
  rw [if_neg hparse_ne, if_neg hne2, List.map_map]
  rfl

theorem filter_shape (avail : String) (days : Int) (ucd : Option Int) (now : Int) :
    filterAvailabilityByDate avail days ucd now = ⟨false, ""⟩ ∨
      (filterAvailabilityByDate avail days ucd now).hasValidDates = true := by
  simp only [filterAvailabilityByDate]
  split
  · exact Or.inl rfl
  · split
    · exact Or.inr rfl
    · split
      · exact Or.inl rfl
      · exact Or.inr rfl

/-- C1: for every availability phrase with at least one parsed range
surviving the expiry filter, `filterAvailabilityByDate` replaces the start
of each surviving range whose start is before the target send instant by
the send instant's calendar date, leaves every range whose start is on or
after the send instant untouched, and renders a range whose start equals
its end after this truncation as a single date "<Month> <day>": the output
is exactly the surviving ranges rendered by the specification's adjustment
rule (`specAdjustRender`), joined with ", ", with validity true. -/
theorem c1_truncation_correct (avail : String) (days ref now : Int)
    (hne : survivingOf avail days ref now ≠ []) :
    filterAvailabilityByDate avail days (some ref) now =
      ⟨true, String.intercalate ", "
        ((survivingOf avail days ref now).map (specAdjustRender (sendInstantOf days ref)))⟩ := by
  rw [filter_eq_of_surviving avail days ref now hne]
  refine congrArg (fun s => FilterResult.mk true s) ?_
  refine congrArg (String.intercalate ", ") ?_
  refine List.map_eq_map_iff.mpr ?_
  intro r hr
  have hmem0 : r ∈ dateRangesOf avail ref now := List.mem_of_mem_filter hr
  have hmid := (parse_mod avail (jsGetFullYear ref) now r hmem0).2
  have hsur : sendInstantOf days ref ≤ r.ends := by
    have h2 := List.of_mem_filter hr
    simpa using h2
  exact render_adjust_eq (sendInstantOf days ref) r hmid hsur

/-- Witness for C1 at the spec's concrete example: range November 9-26 with
reference instant 2025-11-04 and offset 7 (send instant November 11) yields
validity true and display text "November 11-26". -/
theorem c1_truncation_correct_witness :
    survivingOf "November 9-26" 7 (jsMakeDate 2025 10 4) (jsMakeDate 2025 10 4) ≠ [] ∧
    filterAvailabilityByDate "November 9-26" 7 (some (jsMakeDate 2025 10 4))
        (jsMakeDate 2025 10 4) = ⟨true, "November 11-26"⟩ := by
  constructor
  · decide
  · rw [c1_truncation_correct "November 9-26" 7 (jsMakeDate 2025 10 4)
      (jsMakeDate 2025 10 4) (by decide)]
    decide

/-- C4 counterexample: the string " open " equals "OPEN" case-insensitively
after trimming, yet the filter does not return the sentinel result: the
`toUpperCase` comparison is on the untrimmed string, so " open " falls
through to parsing and comes back as an unparseable pass-through. -/
theorem c4_sentinel_counterexample :
    (jsTrim " open ".toList).map Char.toUpper = "OPEN".toList ∧
    filterAvailabilityByDate " open " 7 (some 0) 0 = ⟨true, " open "⟩ :=
  ⟨by decide, by decide⟩

/-- C4 (amended): the sentinel short-circuit fires exactly when the string
is blank after trimming or its uppercase form equals "OPEN" without
trimming; in particular "", "OPEN" and "open" all yield
{ isValid: false, displayText: "" } for every offset, reference instant and
wall clock, with no parsing attempted. -/
theorem c4_sentinel_amended :
    (∀ (avail : String) (days : Int) (ucd : Option Int) (now : Int),
      jsTrim avail.toList = [] ∨ avail.toList.map Char.toUpper = "OPEN".toList →
      filterAvailabilityByDate avail days ucd now = ⟨false, ""⟩) ∧
    (∀ (days : Int) (ucd : Option Int) (now : Int),
      filterAvailabilityByDate "" days ucd now = ⟨false, ""⟩ ∧
      filterAvailabilityByDate "OPEN" days ucd now = ⟨false, ""⟩ ∧
      filterAvailabilityByDate "open" days ucd now = ⟨false, ""⟩) := by
  have hmain : ∀ (avail : String) (days : Int) (ucd : Option Int) (now : Int),
      jsTrim avail.toList = [] ∨ avail.toList.map Char.toUpper = "OPEN".toList →
      filterAvailabilityByDate avail days ucd now = ⟨false, ""⟩ := by
    intro avail days ucd now h
    have hs : sentinelCheck avail = true := by
      simp only [sentinelCheck, Bool.or_eq_true, decide_eq_true_eq]
      rcases h with h | h
      · exact Or.inl (Or.inr h)
      · exact Or.inr h
    unfold filterAvailabilityByDate
    rw [if_pos hs]
  exact ⟨hmain, fun days ucd now =>
    ⟨hmain "" days ucd now (Or.inl rfl),
     hmain "OPEN" days ucd now (Or.inr (by decide)),
     hmain "open" days ucd now (Or.inr (by decide))⟩⟩

/-- Witness for C4 (amended) on a blank string. -/
theorem c4_sentinel_amended_witness :
    filterAvailabilityByDate "   " 3 none 5 = ⟨false, ""⟩ :=
  c4_sentinel_amended.1 "   " 3 none 5 (Or.inl (by decide))

/-- C5: a non-blank, non-OPEN availability string in which the parser
recognises zero date ranges passes through unchanged with validity true,
for every offset, reference instant and wall clock. -/
theorem c5_unparseable_passthrough (avail : String) (days ref now : Int)
    (h1 : jsTrim avail.toList ≠ [])
    (h2 : avail.toList.map Char.toUpper ≠ "OPEN".toList)
    (h3 : parseDateRanges avail (jsGetFullYear ref) now = []) :
    filterAvailabilityByDate avail days (some ref) now = ⟨true, avail⟩ := by
  have hs := sentinelCheck_eq_false avail h1 h2
  unfold filterAvailabilityByDate
  rw [if_neg (by rw [hs]; exact Bool.false_ne_true)]
  simp only [Option.getD_some]
  rw [if_pos h3]

/-- Witness for C5 at the spec's concrete example. -/
theorem c5_unparseable_passthrough_witness :
    filterAvailabilityByDate "ask me anything" 7 (some 0) 0 =
      ⟨true, "ask me anything"⟩ :=
  c5_unparseable_passthrough "ask me anything" 7 0 0 (by decide) (by decide) (by decide)

/-- C9: both functions are total functions of the embedding (they are plain
Lean functions, so no input makes them raise); every failure of the filter
is representable in the return value — a result with
`hasValidDates = false` always carries the empty display text — and a
malformed phrase yields the empty sequence from the parser, not an error. -/
theorem c9_totality :
    (∀ (avail : String) (days : Int) (ucd : Option Int) (now : Int),
      (filterAvailabilityByDate avail days ucd now).hasValidDates = false →
      (filterAvailabilityByDate avail days ucd now).filteredAvailability = "") ∧
    (∀ y now : Int, parseDateRanges "total nonsense ###" y now = []) := by
  constructor
  · intro avail days ucd now h
    rcases filter_shape avail days ucd now with hf | ht
    · rw [hf]
    · rw [ht] at h
      cases h
  · intro y now
    rfl

/-- Witness for C9 on the sentinel input "OPEN". -/
theorem c9_totality_witness :
    (filterAvailabilityByDate "OPEN" 7 (some 0) 0).filteredAvailability = "" :=
  c9_totality.1 "OPEN" 7 (some 0) 0 (by decide)

/-- C10: the send-day schedule maps follow-up indices 0..6 to exactly
7, 14, 21, 31, 41, 51, 61 in that order, and every out-of-range index
(negative or at least 7) returns 0 without raising. -/
theorem c10_schedule :
    ((List.range 7).map (fun i => getWaitDays (i : Int))) = [7, 14, 21, 31, 41, 51, 61] ∧
    (∀ i : Int, i < 0 ∨ 7 ≤ i → getWaitDays i = 0) := by
  constructor
  · decide
  · intro i h
    unfold getWaitDays
    rcases h with h | h
    · rw [if_neg (by omega)]
    · rw [if_pos (by omega)]
      apply List.getD_eq_default
      simp only [List.length_cons, List.length_nil]
      omega

/-- Witness for C10 at the claim's out-of-range indices. -/
theorem c10_schedule_witness : getWaitDays (-1) = 0 ∧ getWaitDays 7 = 0 :=
  ⟨c10_schedule.2 (-1) (Or.inl (by decide)), c10_schedule.2 7 (Or.inr (by decide))⟩

theorem decide_eq_not_decide (P Q : Prop) [Decidable P] [Decidable Q] (h : P ↔ ¬Q) :
    decide P = !decide Q := by
  by_cases hq : Q
  · have hnp : ¬P := fun hp => (h.mp hp) hq
    simp [hq, hnp]
  · have hp : P := h.mpr hq
    simp [hq, hp]

/-- C2 counterexample: availability "November 26" with reference instant
2025-11-20 at 10:00 local time and offset 6 days. The send instant falls on
November 26, so the single range's end (November 26) is not strictly before
the send instant's calendar date and the claim requires it to survive; the
code compares instants (midnight < 10:00), discards it, and returns
{ isValid: false, displayText: "" }. -/
theorem c2_expiry_counterexample :
    survivingOf "November 26" 6 (jsMakeDate 2025 10 20 + 36000000) 0 = [] ∧
    (dateRangesOf "November 26" (jsMakeDate 2025 10 20 + 36000000) 0).filter
      (fun r => !decide (r.ends / 86400000 <
        sendInstantOf 6 (jsMakeDate 2025 10 20 + 36000000) / 86400000)) ≠ [] ∧
    filterAvailabilityByDate "November 26" 6
        (some (jsMakeDate 2025 10 20 + 36000000)) 0 = ⟨false, ""⟩ :=
  ⟨by decide, by decide, by decide⟩

/-- C2 (amended): the expiry filter compares the end instant (local midnight
of the end date) with the send instant, keeping a range exactly when
`send ≤ end`; when the reference instant is a local midnight this coincides
with discarding exactly the ranges whose end date is strictly before the
send instant's calendar date; and whenever the send instant is after every
parsed range's end, the result is exactly { isValid: false,
displayText: "" }. -/
theorem c2_expiry_amended :
    (∀ (avail : String) (days refDay now : Int),
      survivingOf avail days (refDay * 86400000) now =
        (dateRangesOf avail (refDay * 86400000) now).filter
          (fun r => !decide (r.ends / 86400000 <
            sendInstantOf days (refDay * 86400000) / 86400000))) ∧
    (∀ (avail : String) (days ref now : Int),
      parseDateRanges avail (jsGetFullYear ref) now ≠ [] →
      (∀ r ∈ parseDateRanges avail (jsGetFullYear ref) now,
        r.ends < sendInstantOf days ref) →
      filterAvailabilityByDate avail days (some ref) now = ⟨false, ""⟩) := by
  constructor
  · intro avail days refDay now
    unfold survivingOf
    refine List.filter_congr ?_
    intro r hr
    have hmid := (parse_mod avail (jsGetFullYear (refDay * 86400000)) now r hr).2
    have hsend : sendInstantOf days (refDay * 86400000) = (refDay + days) * 86400000 := by
      unfold sendInstantOf jsAddDays; ring
    refine decide_eq_not_decide _ _ ?_
    rw [hsend]
    omega
  · intro avail days ref now hne hall
    have hfil : (parseDateRanges avail (jsGetFullYear ref) now).filter
        (fun r => decide (jsAddDays ref days ≤ r.ends)) = [] := by
      rw [List.filter_eq_nil_iff]
      intro r hr
      have h2 := hall r hr
      unfold sendInstantOf at h2
      simp only [decide_eq_true_eq]
      omega
    cases hsc : sentinelCheck avail
    · unfold filterAvailabilityByDate
      rw [if_neg (by rw [hsc]; exact Bool.false_ne_true)]
      simp only [Option.getD_some]
      rw [if_neg hne, if_pos hfil]
    · unfold filterAvailabilityByDate
      rw [if_pos hsc]

/-- Witness for C2 (amended): "November 9" sent 7 days after 2025-11-20 is
fully expired, so the filter returns the exact empty result. -/
theorem c2_expiry_amended_witness :
    filterAvailabilityByDate "November 9" 7 (some (jsMakeDate 2025 10 20)) 0 =
      ⟨false, ""⟩ :=
  c2_expiry_amended.2 "November 9" 7 (jsMakeDate 2025 10 20) 0 (by decide) (by decide)

/-- C3: every range `parseDateRanges` constructs comes from month/day data
`(m, d1, d2)` (a single date has `d1 = d2`) such that when the computed end
date `new Date(referenceYear, m, d2)` is strictly before the wall-clock
instant `now`, the produced range is exactly the two dates bumped with
`setFullYear(referenceYear + 1)`, and otherwise exactly the two dates
unchanged. -/
theorem c3_year_rollover (phrase : String) (y now : Int) (r : DateRange)
    (h : r ∈ parseDateRanges phrase y now) :
    ∃ m : Int, ∃ d1 d2 : Nat,
      (jsMakeDate y m (d2 : Int) < now →
        r = ⟨jsSetFullYear (jsMakeDate y m (d1 : Int)) (y + 1),
             jsSetFullYear (jsMakeDate y m (d2 : Int)) (y + 1)⟩) ∧
      (¬ jsMakeDate y m (d2 : Int) < now →
        r = ⟨jsMakeDate y m (d1 : Int), jsMakeDate y m (d2 : Int)⟩) := by
  obtain ⟨m, d1, d2, hr⟩ := parse_mem phrase y now r h
  refine ⟨m, d1, d2, ?_, ?_⟩
  · intro hlt
    rw [hr]
    simp only [mkRangeEntry]
    rw [if_pos hlt]
  · intro hge
    rw [hr]
    simp only [mkRangeEntry]
    rw [if_neg hge]

/-- Witness for C3: parsing "January 5-12" with reference year 2025 when the
wall clock reads 2025-12-20 yields exactly the range January 5-12 of 2026. -/
theorem c3_year_rollover_witness :
    (∃ m : Int, ∃ d1 d2 : Nat,
      (jsMakeDate 2025 m (d2 : Int) < jsMakeDate 2025 11 20 →
        (⟨jsMakeDate 2026 0 5, jsMakeDate 2026 0 12⟩ : DateRange) =
          ⟨jsSetFullYear (jsMakeDate 2025 m (d1 : Int)) (2025 + 1),
           jsSetFullYear (jsMakeDate 2025 m (d2 : Int)) (2025 + 1)⟩) ∧
      (¬ jsMakeDate 2025 m (d2 : Int) < jsMakeDate 2025 11 20 →
        (⟨jsMakeDate 2026 0 5, jsMakeDate 2026 0 12⟩ : DateRange) =
          ⟨jsMakeDate 2025 m (d1 : Int), jsMakeDate 2025 m (d2 : Int)⟩)) ∧
    parseDateRanges "January 5-12" 2025 (jsMakeDate 2025 11 20) =
      [⟨jsMakeDate 2026 0 5, jsMakeDate 2026 0 12⟩] ∧
    jsGetFullYear (jsMakeDate 2026 0 5) = 2026 ∧
    jsGetFullYear (jsMakeDate 2026 0 12) = 2026 :=
  ⟨c3_year_rollover "January 5-12" 2025 (jsMakeDate 2025 11 20) _ (by decide),
   by decide, by decide, by decide⟩

/-- C6 counterexample: in "December 5, November 9-26" the single date
December 5 appears first in the text, but the parser emits the range
November 9-26 first, so the output is not ordered by appearance in the
phrase. -/
theorem c6_order_counterexample :
    parseDateRanges "December 5, November 9-26" 2025 0 =
      [⟨jsMakeDate 2025 10 9, jsMakeDate 2025 10 26⟩,
       ⟨jsMakeDate 2025 11 5, jsMakeDate 2025 11 5⟩] ∧
    parseDateRanges "December 5, November 9-26" 2025 0 ≠
      [⟨jsMakeDate 2025 11 5, jsMakeDate 2025 11 5⟩,
       ⟨jsMakeDate 2025 10 9, jsMakeDate 2025 10 26⟩] :=
  ⟨by decide, by decide⟩

/-- C6 (amended): `parseDateRanges` returns all recognised range-pattern
matches in their order of appearance followed by all recognised single-date
matches in their order of appearance (duplicates kept) — not globally by
order of appearance — and `filterAvailabilityByDate` joins the surviving
adjusted ranges with ", " in that parse order. -/
theorem c6_order_amended :
    (∀ (phrase : String) (y now : Int),
      parseDateRanges phrase y now =
        rangeEntriesOf y now (jsTrim phrase.toList) ++
          singleEntriesOf y now (jsTrim phrase.toList)) ∧
    filterAvailabilityByDate "December 5, November 9-26" 0
        (some (jsMakeDate 2025 10 1)) (jsMakeDate 2025 10 1) =
      ⟨true, "November 9-26, December 5"⟩ :=
  ⟨parseDateRanges_eq, by decide⟩

/-- C7 counterexample: "November 26-9" matches the range pattern with the
second day smaller than the first, producing a range whose end is strictly
before its start. -/
theorem c7_invariant_counterexample :
    parseDateRanges "November 26-9" 2025 0 =
      [⟨jsMakeDate 2025 10 26, jsMakeDate 2025 10 9⟩] ∧
    jsMakeDate 2025 10 9 < jsMakeDate 2025 10 26 :=
  ⟨by decide, by decide⟩

/-- C7 (amended): single-date matches always produce `end = start`; a range
match produces `end ≥ start` provided the second day number is at least the
first and both denote days within the named month; a descending pair such
as "November 26-9" produces `end < start` instead. -/
theorem c7_invariant_amended :
    (∀ (y now m : Int) (d : Nat),
      (mkSingleEntry y now m d).start = (mkSingleEntry y now m d).ends) ∧
    (∀ (y now m : Int) (d1 d2 : Nat), 0 ≤ m → m ≤ 11 →
      1 ≤ (d1 : Int) → (d1 : Int) ≤ (d2 : Int) → (d2 : Int) ≤ daysInMonth y (m + 1) →
      (mkRangeEntry y now m d1 d2).start ≤ (mkRangeEntry y now m d1 d2).ends) := by
  constructor
  · intro y now m d
    simp only [mkSingleEntry]
    split <;> rfl
  · intro y now m d1 d2 hm0 hm11 hd1 hd12 hd2
    have hmono : ∀ yy : Int, daysFromCivil yy (m + 1) (d1 : Int) ≤
        daysFromCivil yy (m + 1) (d2 : Int) := by
      intro yy
      simp only [daysFromCivil]
      split_ifs <;> omega
    have hciv : ∀ d : Nat, 1 ≤ (d : Int) → (d : Int) ≤ daysInMonth y (m + 1) →
        civilOfInstant (jsMakeDate y m (d : Int)) = ⟨y, m + 1, (d : Int)⟩ := by
      intro d hda hdb
      unfold civilOfInstant jsMakeDate
      have hq : daysFromCivil y (m + 1) (d : Int) * 86400000 / 86400000 =
          daysFromCivil y (m + 1) (d : Int) := by omega
      rw [hq]
      exact civilFromDays_daysFromCivil y (m + 1) (d : Int) (by omega) (by omega) hda hdb
    simp only [mkRangeEntry]
    split
    · have h1 := hciv d1 hd1 (le_trans hd12 hd2)
      have h2 := hciv d2 (le_trans hd1 hd12) hd2
      unfold jsSetFullYear
      rw [h1, h2]
      show daysFromCivil (y + 1) (m + 1) (d1 : Int) * 86400000 +
          msOfDay (jsMakeDate y m (d1 : Int)) ≤
        daysFromCivil (y + 1) (m + 1) (d2 : Int) * 86400000 +
          msOfDay (jsMakeDate y m (d2 : Int))
      have hms1 : msOfDay (jsMakeDate y m (d1 : Int)) = 0 := by
        unfold msOfDay jsMakeDate; omega
      have hms2 : msOfDay (jsMakeDate y m (d2 : Int)) = 0 := by
        unfold msOfDay jsMakeDate; omega
      have := hmono (y + 1)
      omega
    · show jsMakeDate y m (d1 : Int) ≤ jsMakeDate y m (d2 : Int)
      unfold jsMakeDate
      have := hmono y
      omega

/-- Witness for C7 (amended) on a bumped range (November 3-7 of 2025 parsed
when the wall clock already reads 2026). -/
theorem c7_invariant_amended_witness :
    (mkRangeEntry 2025 (jsMakeDate 2026 0 1) 10 3 7).start ≤
      (mkRangeEntry 2025 (jsMakeDate 2026 0 1) 10 3 7).ends :=
  c7_invariant_amended.2 2025 (jsMakeDate 2026 0 1) 10 3 7 (by decide) (by decide)
    (by decide) (by decide) (by decide)

/-- C8 counterexample: `parseDateRanges` reads the wall clock for its
year-rollover check, so the same phrase and reference year parsed at two
wall-clock instants give different outputs. -/
theorem c8_determinism_counterexample :
    parseDateRanges "January 5-12" 2025 (jsMakeDate 2025 0 1) ≠
      parseDateRanges "January 5-12" 2025 (jsMakeDate 2025 11 20) := by decide

/-- C8 (amended): with a supplied reference instant the filter depends on
the wall clock only through the parser's year-rollover check — whenever two
wall-clock instants give the same parse, the filter results coincide
(`parseDateRanges` itself is not wall-clock independent, see the
counterexample). -/
theorem c8_determinism_amended (avail : String) (days r now1 now2 : Int)
    (h : parseDateRanges avail (jsGetFullYear r) now1 =
      parseDateRanges avail (jsGetFullYear r) now2) :
    filterAvailabilityByDate avail days (some r) now1 =
      filterAvailabilityByDate avail days (some r) now2 := by
  unfold filterAvailabilityByDate
  simp only [Option.getD_some]
  rw [h]

/-- Witness for C8 (amended): two wall-clock instants with equal parses give
equal filter results. -/
theorem c8_determinism_amended_witness :
    filterAvailabilityByDate "November 9-26" 7 (some (jsMakeDate 2025 10 4)) 0 =
      filterAvailabilityByDate "November 9-26" 7 (some (jsMakeDate 2025 10 4))
        (jsMakeDate 2025 0 1) :=
  c8_determinism_amended "November 9-26" 7 (jsMakeDate 2025 10 4) 0
    (jsMakeDate 2025 0 1) (by decide)
